import Mathlib

set_option maxRecDepth 8192
set_option maxHeartbeats 1000000

/-!
Verification of the resume-parsing core (`pdf_parser/parser.py`).

The Python module is embedded shallowly: every extractor becomes a total Lean
function over `String` / `List Char`.  Each regular expression that the module
uses is compiled by hand into a dedicated scanning function that follows the
semantics of Python's `re` engine (leftmost match, greedy/non-greedy
quantifiers, backtracking at optional elements) for that particular pattern.
Character classes follow Python's, restricted to the ASCII fragment for `\w`
and `\d` (the parser's own normalizer discards non-ASCII input, and every
keyword the module matches is ASCII).
-/

/-- Whitespace as Python's `str.isspace` / regex `\s` accept it. -/
def pyIsSpace (c : Char) : Bool :=
  let n := c.toNat
  (9 ≤ n && n ≤ 13) || n = 32 || (28 ≤ n && n ≤ 31) || n = 0x85 || n = 0xa0 ||
  n = 0x1680 || (0x2000 ≤ n && n ≤ 0x200a) || n = 0x2028 || n = 0x2029 ||
  n = 0x202f || n = 0x205f || n = 0x3000

/-- Regex `\w` (ASCII fragment): letters, digits, underscore. -/
def isWordCh (c : Char) : Bool := c.isAlphanum || c = '_'

/-- `[A-Z]`. -/
def isUpperCh (c : Char) : Bool := 'A' ≤ c && c ≤ 'Z'

/-- `[a-z]`. -/
def isLowerCh (c : Char) : Bool := 'a' ≤ c && c ≤ 'z'

/-- `[A-Za-z]`. -/
def isAlphaCh (c : Char) : Bool := isUpperCh c || isLowerCh c

/-- `\d` (ASCII digits). -/
def isDigitCh (c : Char) : Bool := '0' ≤ c && c ≤ '9'

/-- Drop characters in `p` from both ends (Python `str.strip(chars)`). -/
def stripOn (p : Char → Bool) (cs : List Char) : List Char :=
  ((cs.dropWhile p).reverse.dropWhile p).reverse

/-- Python `str.strip()` on a character list. -/
def stripL (cs : List Char) : List Char := stripOn pyIsSpace cs

/-- Python `str.strip()`. -/
def stripStr (s : String) : String := (stripL s.toList).asString

/-- Python `" | ".join`-style joining. -/
def joinSep (sep : String) : List String → String
  | [] => ""
  | [x] => x
  | x :: y :: xs => x ++ sep ++ joinSep sep (y :: xs)

/-- Python `str.split(sep)` for a one-character separator: every occurrence
separates, adjacent separators produce empty pieces. -/
def splitChAux (sep : Char) (acc : List Char) : List Char → List (List Char)
  | [] => [acc.reverse]
  | c :: cs =>
    if c = sep then acc.reverse :: splitChAux sep [] cs
    else splitChAux sep (c :: acc) cs

/-- Python `str.split(sep)` (single-character separator). -/
def splitCh (sep : Char) (cs : List Char) : List (List Char) :=
  splitChAux sep [] cs

/-- `re.split` on a character-class run `[...]+`: maximal delimiter runs
separate; a leading or trailing run produces an empty piece.  The Boolean
state records whether the scanner is inside a delimiter run. -/
def splitRunsAux (delim : Char → Bool) : Bool → List Char → List Char → List (List Char)
  | _, acc, [] => [acc.reverse]
  | false, acc, c :: cs =>
    if delim c then acc.reverse :: splitRunsAux delim true [] cs
    else splitRunsAux delim false (c :: acc) cs
  | true, acc, c :: cs =>
    if delim c then splitRunsAux delim true acc cs
    else splitRunsAux delim false [c] cs

/-- `re.split(r'[..]+', s)`. -/
def splitRuns (delim : Char → Bool) (cs : List Char) : List (List Char) :=
  splitRunsAux delim false [] cs

/-- Case-insensitive literal match at the head (ASCII case folding, as
`re.IGNORECASE` behaves on the parser's ASCII keywords); returns the
remainder after the pattern. -/
def ciSplit : List Char → List Char → Option (List Char)
  | [], cs => some cs
  | _ :: _, [] => none
  | p :: ps, c :: cs => if p.toLower = c.toLower then ciSplit ps cs else none

/-- Case-insensitive substring occurrence. -/
def occursCI (pat : List Char) : List Char → Bool
  | [] => (ciSplit pat []).isSome
  | c :: cs => (ciSplit pat (c :: cs)).isSome || occursCI pat cs

/-- String-level case-insensitive substring occurrence. -/
def occursCIS (pat text : String) : Bool := occursCI pat.toList text.toList

/-- Case-sensitive literal match at the head; returns the remainder. -/
def plainSplit : List Char → List Char → Option (List Char)
  | [], cs => some cs
  | _ :: _, [] => none
  | p :: ps, c :: cs => if p = c then plainSplit ps cs else none

/-- Case-sensitive substring occurrence. -/
def hasSub (pat : List Char) : List Char → Bool
  | [] => (plainSplit pat []).isSome
  | c :: cs => (plainSplit pat (c :: cs)).isSome || hasSub pat cs

/-- `re.search`: try an anchored matcher at every position, leftmost first. -/
def scanFor {α : Type} (f : List Char → Option α) : List Char → Option α
  | [] => f []
  | c :: cs => (f (c :: cs)).orElse (fun _ => scanFor f cs)

/-- `re.search` for patterns that look behind one character (`\b`): the
anchored matcher also receives the character preceding the position. -/
def scanForP {α : Type} (f : Option Char → List Char → Option α) :
    Option Char → List Char → Option α
  | prev, [] => f prev []
  | prev, c :: cs => (f prev (c :: cs)).orElse (fun _ => scanForP f (some c) cs)

/-- Character class `[\w\.-]` of the e-mail pattern. -/
def emailCh (c : Char) : Bool := isWordCh c || c = '.' || c = '-'

/-- `[\w\.-]+@[\w\.-]+` anchored at the current position.  The greedy runs
are forced: `@` is not in the class, so the first run must stop exactly at
an `@`, and backtracking cannot produce any other split. -/
def emailTry (cs : List Char) : Option (List Char) :=
  let r1 := cs.takeWhile emailCh
  if r1.isEmpty then none
  else
    match cs.dropWhile emailCh with
    | '@' :: rest =>
      let r2 := rest.takeWhile emailCh
      if r2.isEmpty then none else some (r1 ++ '@' :: r2)
    | _ => none

/-- `extract_email`: first match of `[\w\.-]+@[\w\.-]+`. -/
def extract_email (text : String) : Option String :=
  (scanFor emailTry text.toList).map List.asString

/-- Exactly three digits. -/
def take3d : List Char → Option (List Char × List Char)
  | a :: b :: c :: rest =>
    if isDigitCh a && isDigitCh b && isDigitCh c then some ([a, b, c], rest) else none
  | _ => none

/-- Exactly four digits. -/
def take4d : List Char → Option (List Char × List Char)
  | a :: b :: c :: d :: rest =>
    if isDigitCh a && isDigitCh b && isDigitCh c && isDigitCh d then
      some ([a, b, c, d], rest)
    else none
  | _ => none

/-- Separator class `[-.\s]` of the phone pattern. -/
def sepCh (c : Char) : Bool := c = '-' || c = '.' || pyIsSpace c

/-- Greedy `X?` with regex backtracking: first try consuming one character
satisfying `p` and running the continuation; if that whole branch fails,
run the continuation without consuming. -/
def optCh {α : Type} (p : Char → Bool) (cs : List Char)
    (k : List Char → List Char → Option α) : Option α :=
  (match cs with
   | c :: rest => if p c then k [c] rest else none
   | [] => none).orElse (fun _ => k [] cs)

/-- `\(?\d{3}\)?[-.\s]?\d{3}[-.\s]?\d{4}` anchored at the current position. -/
def phoneTry (cs : List Char) : Option (List Char) :=
  optCh (· = '(') cs fun o1 cs => do
    let (d1, cs) ← take3d cs
    optCh (· = ')') cs fun o2 cs =>
      optCh sepCh cs fun s1 cs => do
        let (d2, cs) ← take3d cs
        optCh sepCh cs fun s2 cs => do
          let (d3, _) ← take4d cs
          some (o1 ++ d1 ++ o2 ++ s1 ++ d2 ++ s2 ++ d3)

/-- `extract_phone`: first match of the North-American phone pattern. -/
def extract_phone (text : String) : Option String :=
  (scanFor phoneTry text.toList).map List.asString

/-- Non-greedy group scan of `([\s\S]*?)(?:stop1|…|$)` (the second, shadowing
`extract_section` at lines 101-104): the group ends at the first position
where some stop keyword matches case-insensitively, at the end of the text,
or just before a final newline (Python `$` without `MULTILINE`). -/
def grpScan (stops : List (List Char)) : List Char → List Char
  | [] => []
  | c :: cs =>
    if stops.any (fun st => (ciSplit st (c :: cs)).isSome) then []
    else if c = '\n' && cs.isEmpty then []
    else c :: grpScan stops cs

/-- Characters with no special meaning in a Python regular expression.  The
source interpolates its start and stop keywords unescaped into the pattern
(`rf'{start}...'`), so the compiled pattern matches a keyword literally
exactly when the keyword is built from such characters; every keyword the
parser passes (`SKILLS`, `WORK EXPERIENCE`, `EDUCATION`, `CERTIFICATES`)
is.  The excluded metacharacters are backslash, dot, caret, dollar, star,
plus, question mark, brackets, parentheses, bar and the two braces (the
braces written by code point). -/
def regexPlainCh (c : Char) : Bool :=
  !(c = '\\' || c = '.' || c = '^' || c = '$' || c = '*' || c = '+' || c = '?' ||
    c = '[' || c = ']' || c = '(' || c = ')' || c = '|' ||
    c.toNat = 123 || c.toNat = 125)

/-- A keyword the regex engine treats as a literal: every character plain. -/
def regexPlainS (s : String) : Bool := s.toList.all regexPlainCh

/-- The shadowing section pattern anchored at the current position: the start
keyword (case-insensitive), then the non-greedy group. Always succeeds when
the start keyword matches, because `$` matches at the end of the text. -/
def sectionTry (start : List Char) (stops : List (List Char)) (cs : List Char) :
    Option (List Char) :=
  (ciSplit start cs).bind (fun rest => some (grpScan stops rest))

/-- `extract_section` (lines 101-104) — the definition in effect at call time
for every extractor, since Python resolves the global name when called:
`rf'{start}([\s\S]*?)(?:{"|".join(ends)}|$)'` with `re.IGNORECASE`, returning
the stripped group, or absent when the start keyword does not occur.  The
interpolated start and stop arguments are modelled as literal strings, which
coincides with the source exactly for keywords of regex-plain characters
(`regexPlainCh`) — as all four keywords the parser passes are; statements
that quantify over keywords carry that restriction as a hypothesis. -/
def extract_section (text start : String) (ends : List String) : Option String :=
  (scanFor (sectionTry start.toList (ends.map String.toList)) text.toList).map
    (fun g => (stripL g).asString)

/-- Group scan of the first (shadowed) section utility's
`([\s\S]+?)\b(?:stop1|…|$)` (lines 88-91), after its first group character:
the group ends at the first later position that is a word boundary where a
stop keyword or `$` matches; `prev` is the character before the position. -/
def grpScanF (stops : List (List Char)) : Char → List Char → Option (List Char)
  | prev, [] => if isWordCh prev then some [] else none
  | prev, c :: cs =>
    if (isWordCh prev != isWordCh c) &&
        (stops.any (fun st => (ciSplit st (c :: cs)).isSome) || (c = '\n' && cs.isEmpty)) then
      some []
    else
      (grpScanF stops c cs).map (fun g => c :: g)

/-- The shadowed section pattern anchored at the current position; the group
needs at least one character (`+?`). -/
def sectionTryF (start : List Char) (stops : List (List Char)) (cs : List Char) :
    Option (List Char) :=
  (ciSplit start cs).bind (fun rest =>
    match rest with
    | [] => none
    | c :: cs1 => (grpScanF stops c cs1).map (fun g => c :: g))

/-- The first, shadowed `extract_section` definition (lines 88-91):
`rf'{start}([\s\S]+?)\b(?:{"|".join(stop_keywords)}|$)'` with
`re.IGNORECASE`.  Dead code at runtime; embedded for the comparison of the
two utilities.  As with `extract_section`, the interpolated start and stop
arguments are modelled as literal strings, faithful to the source for
keywords of regex-plain characters (`regexPlainCh`). -/
def extract_section_first (text start : String) (ends : List String) : Option String :=
  (scanFor (sectionTryF start.toList (ends.map String.toList)) text.toList).map
    (fun g => (stripL g).asString)

/-- Delimiter class `[,\n;•]` of the skills splitter. -/
def skillsDelim (c : Char) : Bool := c = ',' || c = '\n' || c = ';' || c = '•'

/-- `extract_skills`: the `SKILLS` section split on delimiter runs, tokens
stripped, blanks dropped, joined with `" | "`; missing or empty section gives
`""`. -/
def extract_skills (text : String) : String :=
  match extract_section text "SKILLS" ["WORK EXPERIENCE", "EDUCATION", "CERTIFICATES"] with
  | none => ""
  | some block =>
    if block = "" then ""
    else
      joinSep " | "
        (((splitRuns skillsDelim block.toList).map (fun p => (stripL p).asString)).filter
          (fun s => s != ""))

/-- The Python value returned by `extract_education`: the empty dict `{}` when
the section is missing or empty, a `" | "`-joined string otherwise; the
declared `None` branch is kept although a non-empty stripped block always
yields at least one non-blank line. -/
inductive EduOut where
  | emptyDict : EduOut
  | joined : String → EduOut
  | pyNone : EduOut
deriving DecidableEq

/-- `[l.strip() for l in block.split('\n') if l.strip()]`. -/
def cleanLines (block : String) : List String :=
  ((splitCh '\n' block.toList).map (fun l => (stripL l).asString)).filter (fun s => s != "")

/-- `extract_education`. -/
def extract_education (text : String) : EduOut :=
  match extract_section text "EDUCATION" ["SKILLS", "WORK EXPERIENCE", "CERTIFICATES"] with
  | none => .emptyDict
  | some block =>
    if block = "" then .emptyDict
    else
      let ls := cleanLines block
      if ls.isEmpty then .pyNone else .joined (joinSep " | " ls)

/-- `\b[A-Z][a-z]+,\s+[A-Z]{2}\b` anchored at the current position; `prev` is
the preceding character for the left word boundary.  The greedy runs are
forced: each is maximal and is followed by a character outside its class. -/
def locTry (prev : Option Char) (cs : List Char) : Option (List Char) :=
  if prev.elim true (fun p => !isWordCh p) then
    match cs with
    | c :: cs1 =>
      if isUpperCh c then
        let low := cs1.takeWhile isLowerCh
        if low.isEmpty then none
        else
          match cs1.dropWhile isLowerCh with
          | ',' :: cs2 =>
            let ws := cs2.takeWhile pyIsSpace
            if ws.isEmpty then none
            else
              match cs2.dropWhile pyIsSpace with
              | u1 :: u2 :: rest =>
                if isUpperCh u1 && isUpperCh u2 &&
                    (rest.head?.elim true (fun r => !isWordCh r)) then
                  some (c :: low ++ ',' :: ws ++ [u1, u2])
                else none
              | _ => none
          | _ => none
      else none
    | [] => none
  else none

/-- `extract_location`: the first line containing a `City, ST` pattern,
returned whole and stripped. -/
def extract_location (lines : List String) : Option String :=
  match lines.find? (fun l => (scanForP locTry none l.toList).isSome) with
  | some l => some (stripStr l)
  | none => none

/-- `([A-Za-z]+\s+\d{4})\s*-\s*(current|[A-Za-z]+\s+\d{4})` anchored at the
current position (`IGNORECASE` only affects the literal `current`, tried
first in the alternation).  Greedy runs are forced: each is followed by a
character outside its class.  Returns the two captured groups. -/
def dateTry (cs : List Char) : Option (List Char × List Char) :=
  let a1 := cs.takeWhile isAlphaCh
  if a1.isEmpty then none
  else
    let csA := cs.dropWhile isAlphaCh
    let w1 := csA.takeWhile pyIsSpace
    if w1.isEmpty then none
    else
      match take4d (csA.dropWhile pyIsSpace) with
      | none => none
      | some (d1, csB) =>
        match csB.dropWhile pyIsSpace with
        | '-' :: csC =>
          let csD := csC.dropWhile pyIsSpace
          match ciSplit ['c', 'u', 'r', 'r', 'e', 'n', 't'] csD with
          | some _ => some (a1 ++ w1 ++ d1, csD.take 7)
          | none =>
            let a2 := csD.takeWhile isAlphaCh
            if a2.isEmpty then none
            else
              let csE := csD.dropWhile isAlphaCh
              let w2 := csE.takeWhile pyIsSpace
              if w2.isEmpty then none
              else
                match take4d (csE.dropWhile pyIsSpace) with
                | some (d2, _) => some (a1 ++ w1 ++ d1, a2 ++ w2 ++ d2)
                | none => none
        | _ => none

/-- Search for `\s-\s` reachable through `.*` (which cannot cross a newline,
while each `\s` may itself be the newline) from the current position: the
tail of the block-split lookahead after its leading `\w`. -/
def hasSpDashSp : List Char → Bool
  | c1 :: c2 :: c3 :: cs =>
    (pyIsSpace c1 && c2 = '-' && pyIsSpace c3) ||
    (c1 != '\n' && hasSpDashSp (c2 :: c3 :: cs))
  | _ => false

/-- Lookahead `(?=\w.*\s-\s)` of the work-experience block splitter. -/
def blockStart : List Char → Bool
  | c :: cs => isWordCh c && hasSpDashSp cs
  | [] => false

/-- `re.split(r'\n(?=\w.*\s-\s)', s)`: split at each newline whose right
context matches the lookahead; the newline is consumed, the context is not. -/
def blockSplitAux (acc : List Char) : List Char → List (List Char)
  | [] => [acc.reverse]
  | '\n' :: cs =>
    if blockStart cs then acc.reverse :: blockSplitAux [] cs
    else blockSplitAux ('\n' :: acc) cs
  | c :: cs => blockSplitAux (c :: acc) cs

/-- Work-experience block splitter. -/
def blockSplit (cs : List Char) : List (List Char) := blockSplitAux [] cs

/-- One work-history entry: a single pre-formatted descriptive line. -/
structure WorkEntry where
  text : String
deriving DecidableEq

/-- `f"{duration} | {location}".strip(" |")`. -/
def stripPipeSp (s : String) : String :=
  (stripOn (fun c => c = ' ' || c = '|') s.toList).asString

/-- The body of `extract_work_experience`'s per-block loop; `none` models
`continue` on an all-blank block. -/
def processBlock (fallback : Option String) (block : String) : Option WorkEntry :=
  match cleanLines block with
  | [] => none
  | title :: rest =>
    let meta := rest.headD ""
    let desc := rest.drop 1
    let duration :=
      match scanFor dateTry meta.toList with
      | some (g1, g2) => g1.asString ++ " - " ++ g2.asString
      | none => ""
    let location :=
      match scanForP locTry none meta.toList with
      | some m => m.asString
      | none => fallback.getD ""
    let parts := [title] ++
      (if duration != "" || location != "" then [stripPipeSp (duration ++ " | " ++ location)]
       else []) ++
      (if desc.isEmpty then [] else [joinSep " " desc])
    some ⟨joinSep " | " (parts.filter (fun p => p != ""))⟩

/-- `extract_work_experience`. -/
def extract_work_experience (text : String) (fallback_location : Option String := none) :
    List WorkEntry :=
  match extract_section text "WORK EXPERIENCE" ["EDUCATION", "SKILLS", "CERTIFICATES"] with
  | none => []
  | some block =>
    if block = "" then []
    else (blockSplit block.toList).filterMap (fun b => processBlock fallback_location b.asString)

/-- `re.match(r'(?i)^name\s*[:\-]', line)`. -/
def nameLabelMatch (line : String) : Bool :=
  match ciSplit ['n', 'a', 'm', 'e'] line.toList with
  | some rest =>
    match rest.dropWhile pyIsSpace with
    | c :: _ => c = ':' || c = '-'
    | [] => false
  | none => false

/-- `re.sub(r'(?i)^name\s*[:\-]\s*', '', line).strip()`; when the label
pattern does not match the substitution leaves the line unchanged and only
the final strip applies. -/
def nameLabelStrip (line : String) : String :=
  match ciSplit ['n', 'a', 'm', 'e'] line.toList with
  | some rest =>
    match rest.dropWhile pyIsSpace with
    | c :: cs =>
      if c = ':' || c = '-' then (stripL (cs.dropWhile pyIsSpace)).asString
      else stripStr line
    | [] => stripStr line
  | none => stripStr line

/-- `re.search(r'@|http|www|\d', line)` (case-sensitive). -/
def contactish (line : String) : Bool :=
  line.toList.any (fun c => c = '@' || isDigitCh c) ||
  hasSub ['h', 't', 't', 'p'] line.toList || hasSub ['w', 'w', 'w'] line.toList

/-- `re.match(r'^([A-Z][a-z]+\s+[A-Z][a-z]+)$', line.strip())`; on a stripped
line `$` can only be the end of the text. -/
def twoNameMatch (line : String) : Bool :=
  match stripL line.toList with
  | c :: cs1 =>
    isUpperCh c &&
    (let low := cs1.takeWhile isLowerCh
     !low.isEmpty &&
     (let cs2 := cs1.dropWhile isLowerCh
      let ws := cs2.takeWhile pyIsSpace
      !ws.isEmpty &&
      (match cs2.dropWhile pyIsSpace with
       | d :: cs3 =>
         isUpperCh d &&
         (let low2 := cs3.takeWhile isLowerCh
          !low2.isEmpty &&
          (match cs3.dropWhile isLowerCh with
           | [] => true
           | ['\n'] => true
           | _ => false))
       | [] => false)))
  | [] => false

/-- `extract_name`: three-tier fallback — explicit `Name[:-]` label (first
matching line wins, its stripped payload is returned even when blank); else
the first line when it has no contact-like content; else the first of the
top five lines shaped `Firstname Lastname`. -/
def extract_name (lines : List String) : Option String :=
  match lines.find? nameLabelMatch with
  | some line => some (nameLabelStrip line)
  | none =>
    match lines with
    | [] => none
    | first :: _ =>
      if !contactish first then some (stripStr first)
      else
        match (lines.take 5).find? twoNameMatch with
        | some l => some (stripStr l)
        | none => none

/-- Replacement for one maximal whitespace run under `re.sub(r'\s+\n','\n')`:
when the run contains a newline at index ≥ 1, the prefix up to its last
newline collapses to a single newline and the remainder of the run stays;
otherwise the run is unchanged (the pattern needs whitespace before a
newline). -/
def flushWsRun (run : List Char) : List Char :=
  if (run.drop 1).contains '\n' then
    '\n' :: (run.reverse.takeWhile (fun c => c != '\n')).reverse
  else run

/-- Scanner for `re.sub(r'\s+\n', '\n', raw)`: buffer each maximal whitespace
run and rewrite it with `flushWsRun`. -/
def ppAux (pending : List Char) : List Char → List Char
  | [] => flushWsRun pending.reverse
  | c :: cs =>
    if pyIsSpace c then ppAux (c :: pending) cs
    else flushWsRun pending.reverse ++ c :: ppAux [] cs

/-- `preprocess_text`: `re.sub(r'\s+\n', '\n', raw).strip()`. -/
def preprocess_text (raw : String) : String :=
  (stripL (ppAux [] raw.toList)).asString

/-- The structured record assembled per document: exactly the seven keys of
the Python dict, with the types the extractors produce. -/
structure Record where
  name : Option String
  email : Option String
  phone : Option String
  location : Option String
  skills : String
  education : EduOut
  work_experience : List WorkEntry
deriving DecidableEq

/-- The line segmenter of `extract_structured_fields`:
`[line.strip() for line in text.split('\n') if line.strip()]`. -/
def segmentLines (text : String) : List String := cleanLines text

/-- `extract_structured_fields`: preprocess, segment, run every extractor. -/
def extract_structured_fields (text : String) : Record :=
  let text := preprocess_text text
  let lines := segmentLines text
  { name := extract_name lines
    email := extract_email text
    phone := extract_phone text
    location := extract_location lines
    skills := extract_skills text
    education := extract_education text
    work_experience := extract_work_experience text (extract_location lines) }

/-- `str.replace('\n' + ch, '\n')`: left-to-right, non-overlapping. -/
def replaceNlChar (ch : Char) : List Char → List Char
  | [] => []
  | '\n' :: c :: cs =>
    if c = ch then '\n' :: replaceNlChar ch cs
    else '\n' :: replaceNlChar ch (c :: cs)
  | c :: cs => c :: replaceNlChar ch cs

/-- `str.replace(ch, '')`. -/
def removeChar (ch : Char) (cs : List Char) : List Char := cs.filter (fun c => c != ch)

/-- `str.replace(ch, '-')`. -/
def replaceChar (ch : Char) (cs : List Char) : List Char :=
  cs.map (fun c => if c = ch then '-' else c)

/-- The bullet loop of `clean_text`: for each of `['·', '·', '•']`
(the source lists the same middle dot twice), rewrite `'\n'+ch` to `'\n'` and
then drop every remaining occurrence of `ch`. -/
def bulletPass (cs : List Char) : List Char :=
  ['·', '·', '•'].foldl (fun t ch => removeChar ch (replaceNlChar ch t)) cs

/-- The dash loop: each of `['–', '—', '−', '–', '—']` (three
distinct characters, two repeated) becomes an ASCII dash. -/
def dashPass (cs : List Char) : List Char :=
  ['–', '—', '−', '–', '—'].foldl (fun t ch => replaceChar ch t) cs

/-- `re.sub(r'-{2,}', '-')`: every maximal dash run collapses to one dash.
The Boolean state says whether the scanner is inside a dash run. -/
def collapseDashesAux : Bool → List Char → List Char
  | _, [] => []
  | false, '-' :: cs => '-' :: collapseDashesAux true cs
  | true, '-' :: cs => collapseDashesAux true cs
  | _, c :: cs => c :: collapseDashesAux false cs

/-- `re.sub(r'-{2,}', '-')`. -/
def collapseDashes (cs : List Char) : List Char := collapseDashesAux false cs

/-- `re.sub(r'\s*-\s*', ' - ')`.  The scanner buffers the pending whitespace
run (reversed); a dash consumes the buffered run and the following
whitespace run (state `true`) and emits `" - "`. -/
def dashSpaceAux : Bool → List Char → List Char → List Char
  | false, pending, [] => pending.reverse
  | false, pending, c :: cs =>
    if c = '-' then ' ' :: '-' :: ' ' :: dashSpaceAux true [] cs
    else if pyIsSpace c then dashSpaceAux false (c :: pending) cs
    else pending.reverse ++ c :: dashSpaceAux false [] cs
  | true, _, [] => []
  | true, _, c :: cs =>
    if c = '-' then ' ' :: '-' :: ' ' :: dashSpaceAux true [] cs
    else if pyIsSpace c then dashSpaceAux true [] cs
    else c :: dashSpaceAux false [] cs

/-- `re.sub(r'\s*-\s*', ' - ')`. -/
def dashSpace (cs : List Char) : List Char := dashSpaceAux false [] cs

/-- `re.sub(r'\r\n|\r|\n+', '\n')` with the alternation's order: `\r\n`
first, then a lone `\r`, then a maximal newline run; the Boolean state says
a newline run is being consumed. -/
def collapseNlAux : Bool → List Char → List Char
  | true, '\n' :: cs => collapseNlAux true cs
  | _, '\r' :: '\n' :: cs => '\n' :: collapseNlAux false cs
  | _, '\r' :: cs => '\n' :: collapseNlAux false cs
  | _, '\n' :: cs => '\n' :: collapseNlAux true cs
  | _, [] => []
  | _, c :: cs => c :: collapseNlAux false cs

/-- `re.sub(r'\r\n|\r|\n+', '\n')`. -/
def collapseNl (cs : List Char) : List Char := collapseNlAux false cs

/-- Class `[,_&]`. -/
def punctCh (c : Char) : Bool := c = ',' || c = '_' || c = '&'

/-- `re.sub(r'[,_&]', '')`. -/
def removePunct (cs : List Char) : List Char := cs.filter (fun c => !punctCh c)

/-- `re.sub(r'\s*‹a›‹d›\s*', '', flags=IGNORECASE)` for an artifact token
(`c7`, `c2`, `b7`; only the letter has case).  The scanner buffers the
pending whitespace run; a token match consumes the run, the token, and the
trailing whitespace run (state `true`). -/
def removeTokAux (a d : Char) : Bool → List Char → List Char → List Char
  | false, pending, c1 :: c2 :: cs =>
    if c1.toLower = a && c2 = d then removeTokAux a d true [] cs
    else if pyIsSpace c1 then removeTokAux a d false (c1 :: pending) (c2 :: cs)
    else pending.reverse ++ c1 :: removeTokAux a d false [] (c2 :: cs)
  | false, pending, [c] =>
    if pyIsSpace c then (c :: pending).reverse else pending.reverse ++ [c]
  | false, pending, [] => pending.reverse
  | true, _, c1 :: c2 :: cs =>
    if pyIsSpace c1 then removeTokAux a d true [] (c2 :: cs)
    else if c1.toLower = a && c2 = d then removeTokAux a d true [] cs
    else c1 :: removeTokAux a d false [] (c2 :: cs)
  | true, _, [c] => if pyIsSpace c then [] else [c]
  | true, _, [] => []

/-- One artifact-removal substitution pass. -/
def removeTok (a d : Char) (cs : List Char) : List Char := removeTokAux a d false [] cs

/-- `re.sub(r'[^\x00-\x7F]+', '')`: keep only ASCII. -/
def removeNonAscii (cs : List Char) : List Char := cs.filter (fun c => c.toNat ≤ 127)

/-- Class `[\-\.·]` of the separator-line pattern. -/
def sepLineCh (c : Char) : Bool := c = '-' || c = '.' || c = '·'

/-- States of the separator-line scanner. -/
inductive SepSt where
  | base | run | trail
deriving DecidableEq

/-- `re.sub(r'\n[\-\.·]+\s*', '\n')`: a newline followed by a run of
dash/dot/middle-dot characters and then a whitespace run collapses to just
the newline.  `run` consumes the class run, `trail` the whitespace run. -/
def dropSepLinesAux : SepSt → List Char → List Char
  | .base, '\n' :: c :: cs =>
    if sepLineCh c then '\n' :: dropSepLinesAux .run cs
    else '\n' :: dropSepLinesAux .base (c :: cs)
  | .base, c :: cs => c :: dropSepLinesAux .base cs
  | .base, [] => []
  | .run, c :: cs =>
    if sepLineCh c then dropSepLinesAux .run cs
    else if pyIsSpace c then dropSepLinesAux .trail cs
    else c :: dropSepLinesAux .base cs
  | .run, [] => []
  | .trail, c :: cs =>
    if pyIsSpace c then dropSepLinesAux .trail cs
    else c :: dropSepLinesAux .base cs
  | .trail, [] => []

/-- `re.sub(r'\n[\-\.·]+\s*', '\n')`. -/
def dropSepLines (cs : List Char) : List Char := dropSepLinesAux .base cs

/-- `clean_text`: the Text Normalizer, stage for stage in source order.  The
initial `encode('utf-8','ignore').decode('utf-8','ignore')` is the identity
here: every Lean `Char` is a Unicode scalar value, which UTF-8 round-trips. -/
def clean_text (raw : String) : String :=
  let cs := raw.toList
  let cs := bulletPass cs
  let cs := dashPass cs
  let cs := collapseDashes cs
  let cs := dashSpace cs
  let cs := collapseNl cs
  let cs := removePunct cs
  let cs := removeTok 'c' '7' cs
  let cs := removeTok 'c' '2' cs
  let cs := removeTok 'b' '7' cs
  let cs := removeNonAscii cs
  let cs := dropSepLines cs
  (stripL cs).asString

/-- The pipeline the specification's §2 describes for claim comparison: the
Text Normalizer applied to the raw text before segmentation and the
extractors. -/
def normalizerFirstRecord (text : String) : Record :=
  extract_structured_fields (clean_text text)

/-- All characters ASCII. -/
def asciiOnly (cs : List Char) : Bool := cs.all (fun c => c.toNat ≤ 127)

/-- No two adjacent characters satisfy `p` then `q`. -/
def noPair (p q : Char → Bool) : List Char → Bool
  | c1 :: c2 :: cs => !(p c1 && q c2) && noPair p q (c2 :: cs)
  | _ => true

/-- The two-character artifact token occurs (letter case-insensitive). -/
def hasTok (a d : Char) : List Char → Bool
  | c1 :: c2 :: cs => (c1.toLower = a && c2 = d) || hasTok a d (c2 :: cs)
  | _ => false

/-- States of the dash-spacing normal-form check: `plain` after an ordinary
character (or at the start), `ws` inside a whitespace run that may not meet a
dash, `post` right after a properly spaced dash. -/
inductive DSt where
  | plain | ws | post
deriving DecidableEq

/-- Dash-spacing normal form: every dash sits between exactly one space on
each side, those spaces touch no further whitespace or dash, and no other
whitespace meets a dash; such text is untouched by `re.sub(r'\s*-\s*',' - ')`. -/
def dashChk : DSt → List Char → Bool
  | .plain, [] => true
  | .plain, ' ' :: '-' :: cs =>
    (match cs with
     | ' ' :: cs2 => dashChk .post cs2
     | _ => false)
  | .plain, c :: cs =>
    if c = '-' then false
    else if pyIsSpace c then dashChk .ws cs
    else dashChk .plain cs
  | .ws, [] => true
  | .ws, c :: cs =>
    if c = '-' then false
    else if pyIsSpace c then dashChk .ws cs
    else dashChk .plain cs
  | .post, [] => true
  | .post, c :: cs =>
    if pyIsSpace c || c = '-' then false else dashChk .plain cs

/-- Normal form for the Text Normalizer: ASCII only, no carriage returns, no
`,`/`_`/`&`, no doubled newlines, no doubled dashes, no separator character
right after a newline, dashes spaced as `' - '`, no artifact tokens, and no
leading or trailing whitespace.  Every stage of `clean_text` leaves such a
string unchanged. -/
def cleanNF (s : String) : Bool :=
  let cs := s.toList
  asciiOnly cs && cs.all (fun c => c != '\r' && !punctCh c) &&
  noPair (fun c => c = '\n') (fun c => c = '\n') cs &&
  noPair (fun c => c = '-') (fun c => c = '-') cs &&
  noPair (fun c => c = '\n') sepLineCh cs &&
  dashChk .plain cs &&
  !hasTok 'c' '7' cs && !hasTok 'c' '2' cs && !hasTok 'b' '7' cs &&
  (cs.head?.elim true (fun c => !pyIsSpace c)) &&
  (cs.getLast?.elim true (fun c => !pyIsSpace c))

/-! ### Supporting lemmas -/

theorem scan_sectionTry_none (start : List Char) (stops : List (List Char)) :
    ∀ cs : List Char, occursCI start cs = false →
      scanFor (sectionTry start stops) cs = none := by
  intro cs
  induction cs with
  | nil =>
    intro h
    simp only [occursCI] at h
    simp only [scanFor, sectionTry]
    cases hc : ciSplit start [] with
    | none => rfl
    | some r => rw [hc] at h; simp at h
  | cons c cs ih =>
    intro h
    simp only [occursCI, Bool.or_eq_false_iff] at h
    obtain ⟨h1, h2⟩ := h
    simp only [scanFor, sectionTry]
    cases hc : ciSplit start (c :: cs) with
    | none => simp only [hc, Option.none_bind, Option.orElse]; exact ih h2
    | some r => rw [hc] at h1; simp at h1

theorem scan_sectionTryF_none (start : List Char) (stops : List (List Char)) :
    ∀ cs : List Char, occursCI start cs = false →
      scanFor (sectionTryF start stops) cs = none := by
  intro cs
  induction cs with
  | nil =>
    intro h
    simp only [occursCI] at h
    simp only [scanFor, sectionTryF]
    cases hc : ciSplit start [] with
    | none => rfl
    | some r => rw [hc] at h; simp at h
  | cons c cs ih =>
    intro h
    simp only [occursCI, Bool.or_eq_false_iff] at h
    obtain ⟨h1, h2⟩ := h
    simp only [scanFor, sectionTryF]
    cases hc : ciSplit start (c :: cs) with
    | none => simp only [hc, Option.none_bind, Option.orElse]; exact ih h2
    | some r => rw [hc] at h1; simp at h1

theorem extract_section_none (text start : String) (ends : List String)
    (h : occursCIS start text = false) : extract_section text start ends = none := by
  unfold occursCIS at h
  unfold extract_section
  rw [scan_sectionTry_none _ _ _ h]
  rfl

theorem extract_section_first_none (text start : String) (ends : List String)
    (h : occursCIS start text = false) : extract_section_first text start ends = none := by
  unfold occursCIS at h
  unfold extract_section_first
  rw [scan_sectionTryF_none _ _ _ h]
  rfl

/-! ### Claim theorems -/

/-- C1 (amended): on the input
`"WORK EXPERIENCE\nEngineer - Acme\nJune 2019 - current | Austin, TX\nBuilt things.\nEDUCATION"`,
`extract_work_experience` returns two entries, not one: the meta line
`"June 2019 - current | Austin, TX"` itself starts a new block (it begins
with a word character and contains `" - "`, so the splitter's lookahead
fires), making it the second entry's title line; `"Built things."` becomes
that block's meta line and is dropped from the output. -/
theorem work_example_two_entries :
    extract_work_experience
        "WORK EXPERIENCE\nEngineer - Acme\nJune 2019 - current | Austin, TX\nBuilt things.\nEDUCATION" =
      [⟨"Engineer - Acme"⟩, ⟨"June 2019 - current | Austin, TX"⟩] := by decide

/-- C1 counterexample: the extractor does not return exactly one entry on the
claimed input — it returns two. -/
theorem work_example_not_single_entry :
    (extract_work_experience
        "WORK EXPERIENCE\nEngineer - Acme\nJune 2019 - current | Austin, TX\nBuilt things.\nEDUCATION").length
      = 2 ∧
    (extract_work_experience
        "WORK EXPERIENCE\nEngineer - Acme\nJune 2019 - current | Austin, TX\nBuilt things.\nEDUCATION").length
      ≠ 1 := by
  exact ⟨by decide, by decide⟩

/-- C2 (amended): for every document the record is computed by applying
`preprocess_text` (collapse whitespace-before-newline, strip) to the raw
text, segmenting the result into trimmed non-empty lines, and running the
field extractors on that text and line sequence; the Text Normalizer
`clean_text` is not part of this pipeline. -/
theorem pipeline_preprocess_order (text : String) :
    extract_structured_fields text =
      { name := extract_name (segmentLines (preprocess_text text))
        email := extract_email (preprocess_text text)
        phone := extract_phone (preprocess_text text)
        location := extract_location (segmentLines (preprocess_text text))
        skills := extract_skills (preprocess_text text)
        education := extract_education (preprocess_text text)
        work_experience := extract_work_experience (preprocess_text text)
          (extract_location (segmentLines (preprocess_text text))) } := rfl

/-- C2 counterexample: the pipeline does not invoke the Text Normalizer
before segmentation and extraction — running `clean_text` first changes the
record on the input `"Name: Jane,Doe"` (the normalizer strips the comma). -/
theorem pipeline_normalizer_differs :
    extract_structured_fields "Name: Jane,Doe" ≠ normalizerFirstRecord "Name: Jane,Doe" ∧
    (extract_structured_fields "Name: Jane,Doe").name = some "Jane,Doe" ∧
    (normalizerFirstRecord "Name: Jane,Doe").name = some "JaneDoe" := by
  exact ⟨by decide, by decide, by decide⟩

/-- C5: on `"SKILLS\nPython, Go; Rust•SQL\nWORK EXPERIENCE"` the skills
extractor splits the `SKILLS` section on runs of commas, newlines,
semicolons and bullets, trims, drops blanks and joins with `" | "`. -/
theorem skills_example_split_join :
    extract_skills "SKILLS\nPython, Go; Rust•SQL\nWORK EXPERIENCE" =
      "Python | Go | Rust | SQL" := by decide

/-- C6: on `"Contact: jane.doe@example.com Phone: 555-123-4567"` the e-mail
and phone extractors return the expected matches. -/
theorem email_phone_example :
    extract_email "Contact: jane.doe@example.com Phone: 555-123-4567" =
        some "jane.doe@example.com" ∧
      extract_phone "Contact: jane.doe@example.com Phone: 555-123-4567" =
        some "555-123-4567" := by
  exact ⟨by decide, by decide⟩

/-- C7 (amended): the two `extract_section` definitions are not extensionally
equal (see the counterexample); they do agree — both absent — on every text,
start keyword and stop list built from regex-plain characters (keywords the
source's unescaped pattern interpolation matches literally, as all of the
parser's section keywords are) whenever the start keyword does not occur
case-insensitively in the text.  The regex-plain hypotheses delimit the
domain on which the literal-keyword embedding is faithful to the source. -/
theorem section_defs_agree_on_absent (text start : String) (ends : List String)
    (_hstart : regexPlainS start = true)
    (_hends : ends.all regexPlainS = true)
    (h : occursCIS start text = false) :
    extract_section_first text start ends = none ∧
      extract_section text start ends = none :=
  ⟨extract_section_first_none text start ends h, extract_section_none text start ends h⟩

/-- C7 witness. -/
theorem section_defs_agree_on_absent_witness :
    regexPlainS "SKILLS" = true ∧ ["EDUCATION"].all regexPlainS = true ∧
      occursCIS "SKILLS" "no sections here" = false ∧
      extract_section_first "no sections here" "SKILLS" ["EDUCATION"] = none ∧
      extract_section "no sections here" "SKILLS" ["EDUCATION"] = none :=
  ⟨by decide, by decide, by decide,
   (section_defs_agree_on_absent "no sections here" "SKILLS" ["EDUCATION"]
     (by decide) (by decide) (by decide)).1,
   (section_defs_agree_on_absent "no sections here" "SKILLS" ["EDUCATION"]
     (by decide) (by decide) (by decide)).2⟩

/-- C7 counterexample: on text `"SKILLS"` with start keyword `"SKILLS"` the
first definition returns absent (its group needs a character and a word
boundary) while the shadowing one — the definition in effect at call time —
matches an empty group at `$` and returns the empty string. -/
theorem section_defs_not_equal :
    extract_section_first "SKILLS" "SKILLS" ["WORK EXPERIENCE", "EDUCATION", "CERTIFICATES"] =
        none ∧
      extract_section "SKILLS" "SKILLS" ["WORK EXPERIENCE", "EDUCATION", "CERTIFICATES"] =
        some "" ∧
      extract_section_first "SKILLS" "SKILLS" ["WORK EXPERIENCE", "EDUCATION", "CERTIFICATES"] ≠
        extract_section "SKILLS" "SKILLS" ["WORK EXPERIENCE", "EDUCATION", "CERTIFICATES"] := by
  exact ⟨by decide, by decide, by decide⟩

/-- C8: extraction is deterministic — the embedding of
`extract_structured_fields` is a total function, so any two evaluations on
the same text yield the same record; no step reads anything but the text. -/
theorem extraction_deterministic (text : String) (r1 r2 : Record)
    (h1 : r1 = extract_structured_fields text)
    (h2 : r2 = extract_structured_fields text) : r1 = r2 :=
  h1.trans h2.symm

/-- C8 witness. -/
theorem extraction_deterministic_witness :
    extract_structured_fields "Name: Ann" = extract_structured_fields "Name: Ann" :=
  extraction_deterministic "Name: Ann" _ _ rfl rfl

/-- C4: on any text containing none of the four section keywords
(case-insensitively), `extract_skills` returns `""`, `extract_education`
returns the empty dict (the function's absent value for a missing section)
and `extract_work_experience` returns `[]` for every fallback location; all
three are total functions, so none can raise. -/
theorem no_keywords_graceful (text : String)
    (h1 : occursCIS "SKILLS" text = false)
    (h2 : occursCIS "WORK EXPERIENCE" text = false)
    (h3 : occursCIS "EDUCATION" text = false)
    (_h4 : occursCIS "CERTIFICATES" text = false) :
    extract_skills text = "" ∧ extract_education text = EduOut.emptyDict ∧
      ∀ fb : Option String, extract_work_experience text fb = [] := by
  refine ⟨?_, ?_, ?_⟩
  · unfold extract_skills
    rw [extract_section_none _ _ _ h1]
  · unfold extract_education
    rw [extract_section_none _ _ _ h3]
  · intro fb
    unfold extract_work_experience
    rw [extract_section_none _ _ _ h2]

/-- C4 witness. -/
theorem no_keywords_graceful_witness :
    occursCIS "SKILLS" "hello world" = false ∧
      extract_skills "hello world" = "" ∧
      extract_education "hello world" = EduOut.emptyDict ∧
      extract_work_experience "hello world" none = [] :=
  ⟨by decide,
   (no_keywords_graceful "hello world" (by decide) (by decide) (by decide) (by decide)).1,
   (no_keywords_graceful "hello world" (by decide) (by decide) (by decide) (by decide)).2.1,
   (no_keywords_graceful "hello world" (by decide) (by decide) (by decide) (by decide)).2.2 none⟩

theorem find?_first_true {α : Type} (p : α → Bool) (pre : List α) (l : α) (post : List α)
    (hpre : ∀ x ∈ pre, p x = false) (hl : p l = true) :
    (pre ++ l :: post).find? p = some l := by
  induction pre with
  | nil => simp [List.find?_cons, hl]
  | cons a as ih =>
    have ha : p a = false := hpre a (List.mem_cons_self a as)
    have has : ∀ x ∈ as, p x = false := fun x hx => hpre x (List.mem_cons_of_mem a hx)
    simp [List.find?_cons, ha, ih has]

/-- C10 (amended): when the *first* line matching the name label pattern
`(?i)^name\s*[:\-]` carries nothing but whitespace after the label,
`extract_name` returns `some ""` — the empty string rather than the absent
value — and the later tiers are never consulted.  (For an arbitrary such
line, as the claim reads literally, the property fails: an earlier matching
line with a non-blank payload wins; see the counterexample.) -/
theorem name_label_blank_first_match (pre : List String) (l : String) (post : List String)
    (hpre : ∀ p ∈ pre, nameLabelMatch p = false)
    (hl : nameLabelMatch l = true) (hblank : nameLabelStrip l = "") :
    extract_name (pre ++ l :: post) = some "" := by
  unfold extract_name
  rw [find?_first_true nameLabelMatch pre l post hpre hl]
  show some (nameLabelStrip l) = some ""
  rw [hblank]

/-- C10 witness. -/
theorem name_label_blank_first_match_witness :
    nameLabelMatch "Name:  " = true ∧ nameLabelStrip "Name:  " = "" ∧
      extract_name ["Name:  ", "John Smith"] = some "" :=
  ⟨by decide, by decide,
   name_label_blank_first_match [] "Name:  " ["John Smith"]
     (by intro p hp; simp at hp) (by decide) (by decide)⟩

/-- C10 counterexample: a line matching the label pattern with a blank
payload does not force the empty-string result — with
`["Name: John", "Name:"]` the second line matches with a blank payload, yet
the extractor returns `some "John"` from the earlier matching line. -/
theorem name_label_blank_exists_not_sufficient :
    nameLabelMatch "Name:" = true ∧ nameLabelStrip "Name:" = "" ∧
      extract_name ["Name: John", "Name:"] = some "John" ∧
      extract_name ["Name: John", "Name:"] ≠ some "" := by
  exact ⟨by decide, by decide, by decide, by decide⟩

theorem string_length_ne_zero (x : String) (hx : x ≠ "") : x.length ≠ 0 := by
  intro h0
  apply hx
  cases x with
  | mk data =>
    cases data with
    | nil => rfl
    | cons c cs => simp [String.length] at h0

theorem joinSep_cons_ne_empty (sep x : String) (xs : List String) (hx : x ≠ "") :
    joinSep sep (x :: xs) ≠ "" := by
  cases xs with
  | nil => simpa [joinSep] using hx
  | cons y ys =>
    simp only [joinSep]
    intro h
    have hlen := congrArg String.length h
    have hz : ("" : String).length = 0 := rfl
    rw [String.length_append, String.length_append, hz] at hlen
    have : x.length = 0 := by omega
    exact string_length_ne_zero x hx this

theorem processBlock_text_nonempty (fb : Option String) (b : String) (e : WorkEntry)
    (h : processBlock fb b = some e) : e.text ≠ "" := by
  unfold processBlock at h
  cases hc : cleanLines b with
  | nil => rw [hc] at h; exact absurd h (by simp)
  | cons title rest =>
    rw [hc] at h
    have htitle : title ≠ "" := by
      have hmem : title ∈ cleanLines b := by
        rw [hc]; exact List.mem_cons_self _ _
      unfold cleanLines at hmem
      have := List.of_mem_filter hmem
      simpa using this
    simp only [Option.some.injEq] at h
    subst h
    simp only [List.singleton_append, List.cons_append]
    rw [List.filter_cons_of_pos (by simpa using htitle)]
    exact joinSep_cons_ne_empty _ _ _ htitle

theorem work_experience_all_nonempty (text : String) (fb : Option String) :
    (extract_work_experience text fb).all (fun e => e.text != "") = true := by
  unfold extract_work_experience
  cases hs : extract_section text "WORK EXPERIENCE" ["EDUCATION", "SKILLS", "CERTIFICATES"] with
  | none => rfl
  | some block =>
    by_cases hb : block = ""
    · simp [hb]
    · simp only [hb, if_false]
      rw [List.all_eq_true]
      intro e he
      obtain ⟨b, _, hbe⟩ := List.mem_filterMap.mp he
      have := processBlock_text_nonempty fb b.asString e hbe
      simpa [bne_iff_ne] using this

/-- C9: the assembled record has exactly the seven fields of the `Record`
structure (`name`, `email`, `phone`, `location`, `skills`, `education`,
`work_experience`), with `skills : String` and
`work_experience : List WorkEntry` by the types of the embedding — and every
entry of the work-experience sequence carries a non-empty text: each kept
block contributes its non-blank title line as the head of the `" | "`-join. -/
theorem record_work_entries_nonempty (text : String) :
    ((extract_structured_fields text).work_experience.all (fun e => e.text != "")) = true :=
  work_experience_all_nonempty (preprocess_text text)
    (extract_location (segmentLines (preprocess_text text)))

theorem map_id_of_all {f : Char → Char} {cs : List Char}
    (h : ∀ c ∈ cs, f c = c) : cs.map f = cs := by
  induction cs with
  | nil => rfl
  | cons c cs ih =>
    simp only [List.map_cons]
    rw [h c (List.mem_cons_self _ _), ih (fun x hx => h x (List.mem_cons_of_mem _ hx))]

theorem replaceNlChar_id (ch : Char) (cs : List Char) (h : ∀ c ∈ cs, c ≠ ch) :
    replaceNlChar ch cs = cs := by
  induction cs using replaceNlChar.induct ch with
  | case1 => rfl
  | case2 cs ih => exact absurd rfl (h ch (by simp))
  | case3 c cs hc ih =>
    simp only [replaceNlChar, if_neg hc]
    rw [ih (fun x hx => h x (by simp at hx ⊢; tauto))]
  | case4 c cs hne ih =>
    cases cs with
    | nil => simp [replaceNlChar]
    | cons a as =>
      rw [replaceNlChar.eq_3 ch c (a :: as)
        (by intro c2 cs2 hEq; exact fun h2 => hne c2 cs2 hEq h2)]
      rw [ih (fun x hx => h x (by simp at hx ⊢; tauto))]

theorem removeChar_id (ch : Char) (cs : List Char) (h : ∀ c ∈ cs, c ≠ ch) :
    removeChar ch cs = cs :=
  List.filter_eq_self.mpr (fun a ha => by simpa using h a ha)

theorem replaceChar_id (ch : Char) (cs : List Char) (h : ∀ c ∈ cs, c ≠ ch) :
    replaceChar ch cs = cs :=
  map_id_of_all (fun c hc => if_neg (h c hc))

theorem ascii_no_char (ch : Char) (hch : 127 < ch.toNat) (cs : List Char)
    (h : asciiOnly cs = true) : ∀ c ∈ cs, c ≠ ch := by
  intro c hc hEq
  have := List.all_eq_true.mp h c hc
  simp only [decide_eq_true_eq] at this
  subst hEq
  omega

theorem bulletPass_id (cs : List Char) (h : asciiOnly cs = true) : bulletPass cs = cs := by
  have h1 : ∀ c ∈ cs, c ≠ '·' := ascii_no_char '·' (by decide) cs h
  have h2 : ∀ c ∈ cs, c ≠ '•' := ascii_no_char '•' (by decide) cs h
  show removeChar '•' (replaceNlChar '•' (removeChar '·' (replaceNlChar '·'
      (removeChar '·' (replaceNlChar '·' cs))))) = cs
  rw [replaceNlChar_id _ _ h1, removeChar_id _ _ h1, replaceNlChar_id _ _ h1,
    removeChar_id _ _ h1, replaceNlChar_id _ _ h2, removeChar_id _ _ h2]

theorem dashPass_id (cs : List Char) (h : asciiOnly cs = true) : dashPass cs = cs := by
  have h1 : ∀ c ∈ cs, c ≠ '–' := ascii_no_char '–' (by decide) cs h
  have h2 : ∀ c ∈ cs, c ≠ '—' := ascii_no_char '—' (by decide) cs h
  have h3 : ∀ c ∈ cs, c ≠ '−' := ascii_no_char '−' (by decide) cs h
  show replaceChar '—' (replaceChar '–' (replaceChar '−' (replaceChar '—'
      (replaceChar '–' cs)))) = cs
  rw [replaceChar_id _ _ h1, replaceChar_id _ _ h2, replaceChar_id _ _ h3,
    replaceChar_id _ _ h1, replaceChar_id _ _ h2]

theorem collapseDashesAux_id : ∀ cs : List Char,
    noPair (fun c => c = '-') (fun c => c = '-') cs = true →
    collapseDashesAux false cs = cs ∧
      (cs.head? ≠ some '-' → collapseDashesAux true cs = cs) := by
  intro cs
  induction cs with
  | nil => intro _; exact ⟨rfl, fun _ => rfl⟩
  | cons c cs ih =>
    intro h
    have htail : noPair (fun c => c = '-') (fun c => c = '-') cs = true := by
      cases cs with
      | nil => rfl
      | cons c2 cs2 =>
        simp only [noPair, Bool.and_eq_true] at h
        exact h.2
    have hnext : c = '-' → cs.head? ≠ some '-' := by
      cases cs with
      | nil => intro _; simp
      | cons c2 cs2 =>
        intro hc hc2
        simp only [List.head?_cons, Option.some.injEq] at hc2
        simp only [noPair, Bool.and_eq_true, Bool.not_eq_true', Bool.and_eq_false_iff] at h
        rcases h.1 with h1 | h1 <;> simp [hc, hc2] at h1
    obtain ⟨ihf, iht⟩ := ih htail
    constructor
    · by_cases hc : c = '-'
      · subst hc
        simp only [collapseDashesAux]
        rw [iht (hnext rfl)]
      · rw [collapseDashesAux.eq_4 false c cs (fun _ => hc) (fun _ => hc)]
        rw [ihf]
    · intro hhead
      have hc : c ≠ '-' := by
        simp only [List.head?_cons, ne_eq, Option.some.injEq] at hhead
        exact hhead
      rw [collapseDashesAux.eq_4 true c cs (fun _ => hc) (fun _ => hc)]
      rw [ihf]

theorem collapseDashes_id (cs : List Char)
    (h : noPair (fun c => c = '-') (fun c => c = '-') cs = true) :
    collapseDashes cs = cs :=
  (collapseDashesAux_id cs h).1

theorem collapseNlAux_id : ∀ (b : Bool) (cs : List Char),
    (∀ c ∈ cs, c ≠ '\r') →
    noPair (fun c => c = '\n') (fun c => c = '\n') cs = true →
    (b = true → cs.head? ≠ some '\n') →
    collapseNlAux b cs = cs := by
  intro b cs
  induction b, cs using collapseNlAux.induct with
  | case1 cs ih =>
    intro _ _ hb
    exact absurd rfl (hb rfl)
  | case2 b cs ih =>
    intro hr _ _
    exact absurd rfl (hr '\r' (by simp))
  | case3 b cs hne ih =>
    intro hr _ _
    exact absurd rfl (hr '\r' (by simp))
  | case4 b cs hb' ih =>
    intro hr hnn _
    rw [collapseNlAux.eq_4 b cs hb']
    have hhead : cs.head? ≠ some '\n' := by
      cases cs with
      | nil => simp
      | cons c2 cs2 =>
        simp only [List.head?_cons, ne_eq, Option.some.injEq]
        intro hc2
        subst hc2
        simp [noPair] at hnn
    rw [ih (fun c hc => hr c (by simp [hc])) (by
      cases cs with
      | nil => rfl
      | cons c2 cs2 =>
        simp only [noPair, Bool.and_eq_true] at hnn ⊢
        exact hnn.2) (fun _ => hhead)]
  | case5 b => intro _ _ _; cases b <;> rfl
  | case6 b c cs hA h1 h2 h3 ih =>
    intro hr hnn _
    rw [collapseNlAux.eq_6 b c cs h1 h2 h3 hA]
    rw [ih (fun x hx => hr x (by simp [hx])) (by
      cases cs with
      | nil => rfl
      | cons c2 cs2 =>
        simp only [noPair, Bool.and_eq_true] at hnn ⊢
        exact hnn.2) (by simp)]

theorem collapseNl_id (cs : List Char)
    (hr : ∀ c ∈ cs, c ≠ '\r')
    (hnn : noPair (fun c => c = '\n') (fun c => c = '\n') cs = true) :
    collapseNl cs = cs :=
  collapseNlAux_id false cs hr hnn (by simp)

theorem noPair_tail {p q : Char → Bool} {c : Char} {cs : List Char}
    (h : noPair p q (c :: cs) = true) : noPair p q cs = true := by
  cases cs with
  | nil => rfl
  | cons c2 cs2 =>
    simp only [noPair, Bool.and_eq_true] at h
    exact h.2

theorem noPair_head {p q : Char → Bool} {c1 c2 : Char} {cs : List Char}
    (h : noPair p q (c1 :: c2 :: cs) = true) : ¬(p c1 = true ∧ q c2 = true) := by
  simp only [noPair, Bool.and_eq_true, Bool.not_eq_true'] at h
  intro hpq
  rw [hpq.1, hpq.2] at h
  simp at h

theorem removePunct_id (cs : List Char) (h : ∀ c ∈ cs, punctCh c = false) :
    removePunct cs = cs :=
  List.filter_eq_self.mpr (fun a ha => by simp [h a ha])

theorem removeNonAscii_id (cs : List Char) (h : asciiOnly cs = true) :
    removeNonAscii cs = cs :=
  List.filter_eq_self.mpr (fun a ha => List.all_eq_true.mp h a ha)

theorem removeTokAux_id (a d : Char) : ∀ (b : Bool) (pending cs : List Char),
    b = false → hasTok a d cs = false →
    removeTokAux a d b pending cs = pending.reverse ++ cs := by
  intro b pending cs
  induction b, pending, cs using removeTokAux.induct a d
  case case1 pending c1 c2 cs htk ih =>
    intro _ htok
    simp only [hasTok] at htok
    rw [htk] at htok
    simp at htok
  case case2 pending c1 c2 cs htk hsp ih =>
    intro _ htok
    have htok2 : hasTok a d (c2 :: cs) = false := by
      simp only [hasTok, Bool.or_eq_false_iff] at htok
      exact htok.2
    simp only [removeTokAux, if_neg htk, if_pos hsp]
    rw [ih rfl htok2]
    simp
  case case3 pending c1 c2 cs htk hsp ih =>
    intro _ htok
    have htok2 : hasTok a d (c2 :: cs) = false := by
      simp only [hasTok, Bool.or_eq_false_iff] at htok
      exact htok.2
    simp only [removeTokAux, if_neg htk, if_neg hsp]
    rw [ih rfl htok2]
    simp
  case case4 pending c hsp =>
    intro _ _
    simp only [removeTokAux, if_pos hsp]
    simp
  case case5 pending c hsp =>
    intro _ _
    simp only [removeTokAux, if_neg hsp]
  case case6 pending =>
    intro _ _
    simp [removeTokAux]
  all_goals exact fun hb _ => absurd hb (by simp)

theorem removeTok_id (a d : Char) (cs : List Char) (h : hasTok a d cs = false) :
    removeTok a d cs = cs :=
  removeTokAux_id a d false [] cs rfl h

theorem dropSepLinesAux_id : ∀ (st : SepSt) (cs : List Char),
    st = SepSt.base →
    noPair (fun c => c = '\n') sepLineCh cs = true →
    dropSepLinesAux st cs = cs := by
  intro st cs
  induction st, cs using dropSepLinesAux.induct
  case case1 c cs hcl ih =>
    intro _ hnp
    exact absurd ⟨by simp, hcl⟩ (noPair_head hnp)
  case case2 c cs hcl ih =>
    intro _ hnp
    simp only [dropSepLinesAux]
    rw [if_neg hcl]
    first
    | rfl
    | rw [ih rfl (noPair_tail hnp)]
  case case3 c cs hne ih =>
    intro _ hnp
    cases cs with
    | nil => simp [dropSepLinesAux]
    | cons c2 cs2 =>
      rw [dropSepLinesAux.eq_2 c (c2 :: cs2)
        (fun c3 cs3 hEq h2 => hne c3 cs3 hEq h2)]
      rw [ih rfl (noPair_tail hnp)]
  case case4 =>
    intro _ _
    rfl
  all_goals exact fun hb _ => absurd hb (by simp [SepSt.base])

theorem dropWhile_eq_self_of_head (p : Char → Bool) (cs : List Char)
    (h : cs.head?.elim true (fun c => !p c) = true) : cs.dropWhile p = cs := by
  cases cs with
  | nil => rfl
  | cons c cs =>
    simp only [List.head?_cons, Option.elim, Bool.not_eq_true'] at h
    simp [List.dropWhile_cons, h]

theorem stripL_id (cs : List Char)
    (h1 : cs.head?.elim true (fun c => !pyIsSpace c) = true)
    (h2 : cs.getLast?.elim true (fun c => !pyIsSpace c) = true) : stripL cs = cs := by
  unfold stripL stripOn
  rw [dropWhile_eq_self_of_head _ _ h1]
  rw [dropWhile_eq_self_of_head _ _ (by rw [List.head?_reverse]; exact h2)]
  exact List.reverse_reverse cs

theorem dsAux_cons_dash (pending cs : List Char) :
    dashSpaceAux false pending ('-' :: cs) = ' ' :: '-' :: ' ' :: dashSpaceAux true [] cs := by
  simp [dashSpaceAux]

theorem dsAux_cons_sp (pending : List Char) (c : Char) (cs : List Char)
    (h1 : ¬c = '-') (h2 : pyIsSpace c = true) :
    dashSpaceAux false pending (c :: cs) = dashSpaceAux false (c :: pending) cs := by
  simp [dashSpaceAux, h1, h2]

theorem dsAux_cons_other (pending : List Char) (c : Char) (cs : List Char)
    (h1 : ¬c = '-') (h2 : ¬pyIsSpace c = true) :
    dashSpaceAux false pending (c :: cs) = pending.reverse ++ c :: dashSpaceAux false [] cs := by
  simp [dashSpaceAux, h1, h2]

theorem dsAuxT_sp (p : List Char) (c : Char) (cs : List Char)
    (h1 : ¬c = '-') (h2 : pyIsSpace c = true) :
    dashSpaceAux true p (c :: cs) = dashSpaceAux true [] cs := by
  simp [dashSpaceAux, h1, h2]

theorem dsAuxT_other (p : List Char) (c : Char) (cs : List Char)
    (h1 : ¬c = '-') (h2 : ¬pyIsSpace c = true) :
    dashSpaceAux true p (c :: cs) = c :: dashSpaceAux false [] cs := by
  simp [dashSpaceAux, h1, h2]

theorem dashChk_fix : ∀ (st : DSt) (cs : List Char), dashChk st cs = true →
    (match st with
     | .plain => dashSpaceAux false [] cs = cs
     | .ws => ∀ pending : List Char, dashSpaceAux false pending cs = pending.reverse ++ cs
     | .post => ∀ p : List Char, dashSpaceAux true p cs = cs) := by
  intro st cs
  induction st, cs using dashChk.induct
  case case1 => intro _; rfl
  case case2 cs2 ih =>
    intro h
    rw [dashChk.eq_2] at h
    have hrec := ih h
    show dashSpaceAux false [] (' ' :: '-' :: ' ' :: cs2) = ' ' :: '-' :: ' ' :: cs2
    rw [dsAux_cons_sp [] ' ' _ (by decide) (by decide), dsAux_cons_dash,
      dsAuxT_sp [] ' ' _ (by decide) (by decide), hrec []]
  case case3 cs hx =>
    intro h
    rw [dashChk.eq_3 cs hx] at h
    exact absurd h (by simp)
  case case4 cs hx =>
    intro h
    rw [dashChk.eq_4 '-' cs hx, if_pos rfl] at h
    exact absurd h (by simp)
  case case5 c cs hx h1 h2 ih =>
    intro h
    rw [dashChk.eq_4 c cs hx, if_neg h1, if_pos h2] at h
    have hrec := ih h
    show dashSpaceAux false [] (c :: cs) = c :: cs
    rw [dsAux_cons_sp [] c cs h1 h2, hrec [c]]
    rfl
  case case6 c cs hx h1 h2 ih =>
    intro h
    rw [dashChk.eq_4 c cs hx, if_neg h1, if_neg h2] at h
    have hrec := ih h
    show dashSpaceAux false [] (c :: cs) = c :: cs
    rw [dsAux_cons_other [] c cs h1 h2, hrec]
    rfl
  case case7 =>
    intro _
    intro pending
    show dashSpaceAux false pending [] = pending.reverse ++ []
    simp [dashSpaceAux]
  case case8 cs =>
    intro h
    rw [dashChk.eq_6 '-' cs, if_pos rfl] at h
    exact absurd h (by simp)
  case case9 c cs h1 h2 ih =>
    intro h
    rw [dashChk.eq_6 c cs, if_neg h1, if_pos h2] at h
    have hrec := ih h
    intro pending
    rw [dsAux_cons_sp pending c cs h1 h2, hrec (c :: pending)]
    simp
  case case10 c cs h1 h2 ih =>
    intro h
    rw [dashChk.eq_6 c cs, if_neg h1, if_neg h2] at h
    have hrec := ih h
    intro pending
    rw [dsAux_cons_other pending c cs h1 h2, hrec]
  case case11 =>
    intro _
    intro p
    rfl
  case case12 c cs hsd =>
    intro h
    rw [dashChk.eq_8 c cs, if_pos hsd] at h
    exact absurd h (by simp)
  case case13 c cs hsd ih =>
    intro h
    rw [dashChk.eq_8 c cs, if_neg hsd] at h
    have hrec := ih h
    intro p
    have h1 : ¬c = '-' := by
      intro hEq
      exact hsd (by simp [hEq])
    have h2 : ¬pyIsSpace c = true := by
      intro hEq
      exact hsd (by simp [hEq])
    rw [dsAuxT_other p c cs h1 h2, hrec]

theorem dashSpace_id (cs : List Char) (h : dashChk DSt.plain cs = true) :
    dashSpace cs = cs :=
  dashChk_fix DSt.plain cs h

theorem dropSepLines_id (cs : List Char)
    (h : noPair (fun c => c = '\n') sepLineCh cs = true) : dropSepLines cs = cs :=
  dropSepLinesAux_id SepSt.base cs rfl h

theorem asString_toList (s : String) : s.toList.asString = s := rfl

/-- C3 (amended): the Text Normalizer is not idempotent on all inputs (see
the counterexample: removing an artifact token can create a new one), but
every string in normalizer normal form (`cleanNF`) — ASCII-only, free of
carriage returns, commas, underscores, ampersands and artifact tokens, with
no doubled newlines or dashes, no separator run starting a line, dashes
spaced exactly `' - '`, and stripped ends — is a fixed point of
`clean_text`: each of its substitution stages leaves such a string
unchanged, so a second pass strips nothing further once the text reaches
normal form. -/
theorem clean_text_fixed_point (s : String) (h : cleanNF s = true) :
    clean_text s = s := by
  unfold cleanNF at h
  simp only [Bool.and_eq_true] at h
  obtain ⟨⟨⟨⟨⟨⟨⟨⟨⟨⟨h1, h2⟩, h3⟩, h4⟩, h5⟩, h6⟩, h7⟩, h8⟩, h9⟩, h10⟩, h11⟩ := h
  have hrr : ∀ c ∈ s.toList, c ≠ '\r' := by
    intro c hc
    have := List.all_eq_true.mp h2 c hc
    simp only [Bool.and_eq_true, bne_iff_ne, ne_eq] at this
    exact this.1
  have hpp : ∀ c ∈ s.toList, punctCh c = false := by
    intro c hc
    have := List.all_eq_true.mp h2 c hc
    simp only [Bool.and_eq_true, Bool.not_eq_true'] at this
    exact this.2
  have ht1 : hasTok 'c' '7' s.toList = false := by
    simpa using h7
  have ht2 : hasTok 'c' '2' s.toList = false := by
    simpa using h8
  have ht3 : hasTok 'b' '7' s.toList = false := by
    simpa using h9
  show (stripL (dropSepLines (removeNonAscii (removeTok 'b' '7' (removeTok 'c' '2'
    (removeTok 'c' '7' (removePunct (collapseNl (dashSpace (collapseDashes
    (dashPass (bulletPass s.toList)))))))))))).asString = s
  rw [bulletPass_id _ h1, dashPass_id _ h1, collapseDashes_id _ h4,
    dashSpace_id _ h6, collapseNl_id _ hrr h3, removePunct_id _ hpp,
    removeTok_id _ _ _ ht1, removeTok_id _ _ _ ht2, removeTok_id _ _ _ ht3,
    removeNonAscii_id _ h1, dropSepLines_id _ h5, stripL_id _ h10 h11]
  exact asString_toList s

/-- C3 witness. -/
theorem clean_text_fixed_point_witness :
    cleanNF "Jane Doe - Engineer" = true ∧
      clean_text "Jane Doe - Engineer" = "Jane Doe - Engineer" :=
  ⟨by decide, clean_text_fixed_point "Jane Doe - Engineer" (by decide)⟩

/-- C3 counterexample: the normalizer is not idempotent.  On `"cc77"` the
artifact-token pass removes the inner `c7` and thereby forms a new `c7`
from the remaining characters, which only the second pass removes. -/
theorem clean_text_not_idempotent :
    clean_text "cc77" = "c7" ∧ clean_text "c7" = "" ∧
      clean_text (clean_text "cc77") ≠ clean_text "cc77" := by
  exact ⟨by decide, by decide, by decide⟩
